import Mathlib

/-
Verification of the scaling-analysis pipeline in scripts/analyze_scaling.py.

The script reads a CSV of experiment rows, filters out rows with
meanSteps = 0, groups the remainder by the magnitude column, and for each
group computes a linear regression of meanSteps on arraySize
(scipy.stats.linregress), ratio statistics of stepsPerElement (mean,
Bessel-corrected standard deviation, coefficient of variation), a Spearman
rank-correlation test on the regression residuals, and the mean
convergence rate; it then builds a pivot table of mean convergenceRate by
(arraySize, magnitude) and a final summary verdict averaging R-squared and
the coefficient of variation over the groups whose regression succeeded.

Modelling conventions used throughout this file:
* CSV cell values are rationals (ℚ); the script's float arithmetic is
  modelled exactly over ℚ.  Lean's division-by-zero convention q / 0 = 0
  is only ever relied on where the script itself guards the denominator
  or where the quantity is unreachable; where the script can produce a
  non-finite float (inf or nan) the model uses an explicit Option/CV
  encoding instead, noted at each definition.
* scipy.stats.linregress raises ValueError when all x values coincide
  (and n > 1); the model returns Option Fit, with none for that case.
* square roots (inside the standard deviation and inside the Pearson
  denominator) are modelled by sqrtQ, a total rational function that is
  exact on squares of rationals and strictly positive on positive inputs;
  the claims below depend on sqrt only through these two properties.
-/

namespace ScalingAnalysis

/-- Record models one CSV row with the seven required columns of
analyze_scaling.py (line 41).  All columns are numeric in the data files
the script consumes, so every field is a rational. -/
structure Record where
  magnitude : ℚ
  target : ℚ
  smallestFactor : ℚ
  arraySize : ℚ
  meanSteps : ℚ
  stepsPerElement : ℚ
  convergenceRate : ℚ
deriving DecidableEq

/-- Helper building a Record positionally, in the column order of the CSV. -/
def mkRec (mag tgt sf asz ms spe cr : ℚ) : Record :=
  { magnitude := mag, target := tgt, smallestFactor := sf, arraySize := asz,
    meanSteps := ms, stepsPerElement := spe, convergenceRate := cr }

/-- filterValid models line 54, `df[df['meanSteps'] > 0]`: keep the rows
whose meanSteps is strictly positive. -/
def filterValid (df : List Record) : List Record :=
  df.filter (fun r => decide (0 < r.meanSteps))

/-- mean of a list of rationals; on the empty list this is 0 / 0 = 0,
which is never reached by the script (every call site has a nonempty
list). -/
def mean (l : List ℚ) : ℚ := l.sum / l.length

/-- ssd is the centred sum of squares Σ (v - mean)², the numerator shared
by variance and the regression formulas.  scipy computes the same
quantities normalised by n through np.cov; the normalisation cancels in
every ratio the script uses (slope, r, r²), so sums are used here. -/
def ssd (l : List ℚ) : ℚ := (l.map (fun v => (v - mean l) ^ 2)).sum

/-- scp is the centred sum of products Σ (xᵢ - x̄)(yᵢ - ȳ). -/
def scp (x y : List ℚ) : ℚ :=
  (List.zipWith (fun a b => (a - mean x) * (b - mean y)) x y).sum

/-- sampleVar is the Bessel-corrected sample variance (ddof=1), the square
of np.std(l, ddof=1) on line 110. -/
def sampleVar (l : List ℚ) : ℚ := ssd l / ((l.length : ℚ) - 1)

/-- sqrtQ is the rational stand-in for the float square root: for
q = a / b ≥ 0 it returns Nat.sqrt (a * b) / b, which is exact whenever q
is the square of a rational (in particular sqrtQ 0 = 0) and strictly
positive whenever q > 0.  The claims below use sqrt only through those
two properties. -/
def sqrtQ (q : ℚ) : ℚ :=
  if q ≤ 0 then 0 else (Nat.sqrt (q.num.toNat * q.den) : ℚ) / (q.den : ℚ)

/-- allEqual l says all members of l coincide; nonempty l satisfies it
exactly when np.amax(l) == np.amin(l), the degeneracy test inside
scipy.stats.linregress. -/
def allEqual (l : List ℚ) : Prop := ∀ a ∈ l, ∀ b ∈ l, a = b

instance (l : List ℚ) : Decidable (allEqual l) :=
  decidable_of_iff (∀ a ∈ l, ∀ b ∈ l, a = b) Iff.rfl

/-- Fit is the defined result of scipy.stats.linregress on line 84: slope,
intercept, the squared correlation r², and the square of the slope
standard error.  scipy also returns a two-sided p-value, an irrational
function of r and n through the t-distribution that is defined exactly
when the rest of the tuple is; it carries no information used by any
claim beyond definedness and is not modelled numerically. -/
structure Fit where
  slope : ℚ
  intercept : ℚ
  r2 : ℚ
  stderrSq : ℚ
deriving DecidableEq

/-- linregress models scipy.stats.linregress.  scipy raises ValueError
when len(x) > 1 and all x coincide; with n ≤ 1 its covariance formulas
produce NaN (0/0) results.  Both give the script no usable fit, modelled
as none; the defined case requires 2 ≤ n and non-constant x.  r is 0 when
either centred sum of squares vanishes (scipy's explicit r_den == 0
check), else r² = scp² / (ssd x * ssd y).  stderrSq is the square of
scipy's sqrt((1 - r²) * ssd y / ssd x / (n - 2)); at n = 2 the rational
convention q / 0 = 0 stands in for scipy's degenerate value, unreachable
from the script (call sites have n ≥ 3). -/
def linregress (x y : List ℚ) : Option Fit :=
  if 2 ≤ x.length ∧ ¬ allEqual x then
    some { slope := scp x y / ssd x
           intercept := mean y - scp x y / ssd x * mean x
           r2 := if ssd x = 0 ∨ ssd y = 0 then 0 else scp x y ^ 2 / (ssd x * ssd y)
           stderrSq :=
             (1 - (if ssd x = 0 ∨ ssd y = 0 then 0
                   else scp x y ^ 2 / (ssd x * ssd y))) *
               (ssd y / ssd x) / ((x.length : ℚ) - 2) }
  else none

/-- rankIn gives the 1-based average (tie-corrected) rank of v within l,
as scipy.stats.rankdata does inside spearmanr. -/
def rankIn (l : List ℚ) (v : ℚ) : ℚ :=
  (l.countP (fun u => decide (u < v)) : ℚ) +
    ((l.countP (fun u => decide (u = v)) : ℚ) + 1) / 2

/-- ranks maps every element of l to its tie-corrected rank in l. -/
def ranks (l : List ℚ) : List ℚ := l.map (rankIn l)

/-- pearson correlation; none models the NaN scipy produces when either
input is constant (zero denominator). -/
def pearson (x y : List ℚ) : Option ℚ :=
  if ssd x = 0 ∨ ssd y = 0 then none
  else some (scp x y / sqrtQ (ssd x * ssd y))

/-- spearman rank correlation, the statistic of scipy.stats.spearmanr on
line 128 (its p-value is again a function of the correlation and n used
only to choose a printed message). -/
def spearman (x y : List ℚ) : Option ℚ := pearson (ranks x) (ranks y)

/-- CV is the value space of the coefficient of variation on line 111:
a finite rational, or the explicit float('inf') the script substitutes
when the mean ratio is not positive. -/
inductive CV where
  | fin (value : ℚ)
  | inf
deriving DecidableEq

/-- stdRatio models line 110: np.std(ratios, ddof=1) if len(ratios) > 1
else 0. -/
def stdRatio (ratios : List ℚ) : ℚ :=
  if 1 < ratios.length then sqrtQ (sampleVar ratios) else 0

/-- cvRatio models line 111: std / mean * 100 when the mean is positive,
float('inf') otherwise. -/
def cvRatio (ratios : List ℚ) : CV :=
  if 0 < mean ratios then CV.fin (stdRatio ratios / mean ratios * 100) else CV.inf

/-- PartitionOut collects every value the per-magnitude loop body (lines
74 to 148) computes for a partition large enough to be analysed.
residuals is the multiset of residual values of line 127 (order
immaterial), with the outer Option none when the Python names slope and
intercept are still unbound (NameError caught on line 138: no partition
so far had a successful regression).  residualTrend is the Spearman
statistic of line 128 on those residuals: outer none again the NameError
case, inner none the NaN scipy returns on constant input. -/
structure PartitionOut where
  count : Nat
  targetShown : ℚ
  smallestFactorShown : ℚ
  fit : Option Fit
  meanRatio : ℚ
  sdRatio : ℚ
  cv : CV
  residuals : Option (Multiset ℚ)
  residualTrend : Option (Option ℚ)
  convRate : ℚ
deriving DecidableEq

/-- PartitionResult is the outcome of one iteration of the magnitude
loop: either the insufficient-data early exit of lines 69 to 72, or a
full block of computed statistics. -/
inductive PartitionResult where
  | insufficient (count : Nat)
  | analyzed (out : PartitionOut)
deriving DecidableEq

/-- partitionStep models one iteration of the loop over magnitudes (lines
66 to 148).  The prev argument carries the Python variables slope and
intercept as left by earlier iterations: they are function-scoped, so
when linregress raises for the current partition, line 127 silently reuses
the values landed by the last partition whose regression succeeded; that
is modelled by landed.  The returned state is the updated (slope,
intercept) pair visible to later iterations. -/
def partitionStep (prev : Option (ℚ × ℚ)) (subset : List Record) :
    PartitionResult × Option (ℚ × ℚ) :=
  if subset.length < 3 then (PartitionResult.insufficient subset.length, prev)
  else
    let x := subset.map (fun r => r.arraySize)
    let y := subset.map (fun r => r.meanSteps)
    let fit := linregress x y
    let landed := match fit with
      | some f => some (f.slope, f.intercept)
      | none => prev
    let ratios := subset.map (fun r => r.stepsPerElement)
    let resids : Option (List ℚ) := landed.map (fun si =>
      subset.map (fun r => r.meanSteps - (si.1 * r.arraySize + si.2)))
    (PartitionResult.analyzed
      { count := subset.length
        targetShown := (subset.map (fun r => r.target)).headI
        smallestFactorShown := (subset.map (fun r => r.smallestFactor)).headI
        fit := fit
        meanRatio := mean ratios
        sdRatio := stdRatio ratios
        cv := cvRatio ratios
        residuals := resids.map Multiset.ofList
        residualTrend := resids.map (fun l => spearman x l)
        convRate := mean (subset.map (fun r => r.convergenceRate)) },
     landed)

/-- subsetOf models line 67: the valid rows whose magnitude equals m. -/
def subsetOf (dfv : List Record) (m : ℚ) : List Record :=
  dfv.filter (fun r => decide (r.magnitude = m))

/-- sortedDedup models sorted(column.unique()): the distinct values in
ascending order. -/
def sortedDedup (l : List ℚ) : List ℚ :=
  l.dedup.insertionSort (· ≤ ·)

/-- sortedMags is the iteration order of both magnitude loops (lines 66
and 183). -/
def sortedMags (dfv : List Record) : List ℚ :=
  sortedDedup (dfv.map (fun r => r.magnitude))

/-- analyzeLoop runs partitionStep over the sorted magnitudes, threading
the function-scoped (slope, intercept) state. -/
def analyzeLoop : Option (ℚ × ℚ) → List ℚ → List Record → List (ℚ × PartitionResult)
  | _, [], _ => []
  | prev, m :: ms, dfv =>
    let step := partitionStep prev (subsetOf dfv m)
    (m, step.1) :: analyzeLoop step.2 ms dfv

/-- Pivot models the pivot table of lines 158 to 163: rows indexed by the
distinct arraySize values, columns by the distinct magnitudes, each cell
the mean convergenceRate of the matching valid rows (none when no row
matches, pandas' NaN hole). -/
structure Pivot where
  rows : List ℚ
  cols : List ℚ
  cells : List (List (Option ℚ))
deriving DecidableEq

/-- pivotCell is one cell of the pivot table. -/
def pivotCell (dfv : List Record) (a m : ℚ) : Option ℚ :=
  if (dfv.filter (fun r => decide (r.arraySize = a ∧ r.magnitude = m))).isEmpty then none
  else some (mean ((dfv.filter
    (fun r => decide (r.arraySize = a ∧ r.magnitude = m))).map
      (fun r => r.convergenceRate)))

/-- pivotOf builds the full pivot table from the valid rows. -/
def pivotOf (dfv : List Record) : Pivot :=
  let rows := sortedDedup (dfv.map (fun r => r.arraySize))
  let cols := sortedDedup (dfv.map (fun r => r.magnitude))
  { rows := rows, cols := cols,
    cells := rows.map (fun a => cols.map (fun m => pivotCell dfv a m)) }

/-- summaryCV models line 193, the unguarded float division
np.std(ratios, ddof=1) / np.mean(ratios) * 100 (with the len > 1 guard
giving 0): none stands for the non-finite float (inf or nan) produced
when the mean is zero, every comparison against which is False. -/
def summaryCV (ratios : List ℚ) : Option ℚ :=
  if 1 < ratios.length then
    if mean ratios = 0 then none
    else some (sqrtQ (sampleVar ratios) / mean ratios * 100)
  else some 0

/-- summaryStepOf models one iteration of the summary loop (lines 183 to
196): partitions with fewer than 3 rows are skipped, a failed regression
appends nothing (the bare except), and a successful one contributes its
r² and the partition's coefficient of variation. -/
def summaryStepOf (dfv : List Record) (m : ℚ) : Option (ℚ × Option ℚ) :=
  let subset := subsetOf dfv m
  if 3 ≤ subset.length then
    match linregress (subset.map (fun r => r.arraySize))
        (subset.map (fun r => r.meanSteps)) with
    | some f => some (f.r2, summaryCV (subset.map (fun r => r.stepsPerElement)))
    | none => none
  else none

/-- summaryPairs is the pair of accumulator lists all_r_squared and
all_cv, zipped (they are always appended together). -/
def summaryPairs (dfv : List Record) : List (ℚ × Option ℚ) :=
  (sortedMags dfv).filterMap (summaryStepOf dfv)

/-- cvLt is the comparison avg_cv < t on the float side: False whenever
the value is non-finite. -/
def cvLt (cv : Option ℚ) (t : ℚ) : Prop :=
  match cv with
  | some c => c < t
  | none => False

instance : (cv : Option ℚ) → (t : ℚ) → Decidable (cvLt cv t)
  | some c, t => inferInstanceAs (Decidable (c < t))
  | none, _ => inferInstanceAs (Decidable False)

/-- Verdict is the three-way conclusion printed on lines 207 to 215. -/
inductive Verdict where
  | strong
  | moderate
  | insufficient
deriving DecidableEq

/-- classify models the if/elif/else chain of lines 207 to 215. -/
def classify (r2 : ℚ) (cv : Option ℚ) : Verdict :=
  if 95 / 100 < r2 ∧ cvLt cv 15 then Verdict.strong
  else if 9 / 10 < r2 ∧ cvLt cv 25 then Verdict.moderate
  else Verdict.insufficient

/-- avgCVOpt is np.mean over the collected cv values: non-finite as soon
as any entry is non-finite. -/
def avgCVOpt (l : List (Option ℚ)) : Option ℚ :=
  if l.all Option.isSome then some (mean l.reduceOption) else none

/-- Summary is the content of the final summary block (lines 198 to 215):
the two averages and the verdict.  The whole block is guarded by
`if all_r_squared:`, so it exists only when at least one partition
contributed; summaryOut returns none exactly when the script prints no
averages and no conclusion at all. -/
structure Summary where
  avgR2 : ℚ
  avgCV : Option ℚ
  verdict : Verdict
deriving DecidableEq

/-- summaryOut models lines 198 to 215. -/
def summaryOut (dfv : List Record) : Option Summary :=
  let prs := summaryPairs dfv
  if prs.isEmpty then none
  else
    let aR := mean (prs.map Prod.fst)
    let aCV := avgCVOpt (prs.map Prod.snd)
    some { avgR2 := aR, avgCV := aCV, verdict := classify aR aCV }

/-- Output gathers everything the program computes and prints after the
input has been loaded and validated: the row counts of lines 61 and 62,
the per-partition blocks, the pivot table and the summary block. -/
structure Output where
  total : Nat
  valid : Nat
  partitions : List (ℚ × PartitionResult)
  pivot : Pivot
  summary : Option Summary
deriving DecidableEq

/-- fullOutput is the analysis pipeline applied to a loaded dataset. -/
def fullOutput (df : List Record) : Output :=
  let dfv := filterValid df
  { total := df.length
    valid := dfv.length
    partitions := analyzeLoop none (sortedMags dfv) dfv
    pivot := pivotOf dfv
    summary := summaryOut dfv }

/-- ProgError enumerates the fatal exits reachable once the CSV has been
parsed into typed records: the missing-columns exit of lines 43 to 46
(naming the missing columns) and the no-valid-data exit of lines 56 to
59.  The earlier exits (missing argument, missing file, parse failure)
concern the OS interface and are upstream of this model. -/
inductive ProgError where
  | missingColumns (missing : List String)
  | noValidData
deriving DecidableEq

/-- requiredCols is the column list of line 41. -/
def requiredCols : List String :=
  ["magnitude", "target", "smallestFactor", "arraySize",
   "meanSteps", "stepsPerElement", "convergenceRate"]

/-- program models main from the column check onward: a fatal exit
carries no Output at all (the script calls sys.exit before any partition
report), otherwise the full report is produced and the process exits 0. -/
def program (cols : List String) (df : List Record) : Except ProgError Output :=
  let missing := requiredCols.filter (fun c => decide (c ∉ cols))
  if missing.isEmpty then
    if (filterValid df).isEmpty then Except.error ProgError.noValidData
    else Except.ok (fullOutput df)
  else Except.error (ProgError.missingColumns missing)

/-- definedFitMags lists the magnitudes whose partition obtains a defined
linear fit: at least 3 valid rows and a non-constant arraySize column. -/
def definedFitMags (dfv : List Record) : List ℚ :=
  (sortedMags dfv).filter (fun m =>
    decide (3 ≤ (subsetOf dfv m).length ∧
      ¬ allEqual ((subsetOf dfv m).map (fun r => r.arraySize))))

/-- summaryPairOf is the (r², cv) contribution of a defined-fit
magnitude, with an inert default on the undefined branch. -/
def summaryPairOf (dfv : List Record) (m : ℚ) : ℚ × Option ℚ :=
  let subset := subsetOf dfv m
  match linregress (subset.map (fun r => r.arraySize))
      (subset.map (fun r => r.meanSteps)) with
  | some f => (f.r2, summaryCV (subset.map (fun r => r.stepsPerElement)))
  | none => (0, none)

/-- fitOfResult projects the fit of an analysed partition (none for the
insufficient-data early exit). -/
def fitOfResult : PartitionResult → Option (Option Fit)
  | PartitionResult.insufficient _ => none
  | PartitionResult.analyzed o => some o.fit

/-- residualsOfResult projects the residual multiset of an analysed
partition. -/
def residualsOfResult : PartitionResult → Option (Option (Multiset ℚ))
  | PartitionResult.insufficient _ => none
  | PartitionResult.analyzed o => some o.residuals

/-- residualTrendOfResult projects the Spearman residual statistic of an
analysed partition. -/
def residualTrendOfResult : PartitionResult → Option (Option (Option ℚ))
  | PartitionResult.insufficient _ => none
  | PartitionResult.analyzed o => some o.residualTrend

/-- cvOfResult projects the coefficient of variation of an analysed
partition. -/
def cvOfResult : PartitionResult → Option CV
  | PartitionResult.insufficient _ => none
  | PartitionResult.analyzed o => some o.cv

/-- targetOfResult projects the representative target printed on line 75
(the first row of the partition). -/
def targetOfResult : PartitionResult → Option ℚ
  | PartitionResult.insufficient _ => none
  | PartitionResult.analyzed o => some o.targetShown

/-- scrubPartition erases the two representative display values taken
from the first row of a partition (lines 75 and 76), the only
order-sensitive output. -/
def scrubPartition : PartitionResult → PartitionResult
  | PartitionResult.insufficient n => PartitionResult.insufficient n
  | PartitionResult.analyzed o =>
      PartitionResult.analyzed { o with targetShown := 0, smallestFactorShown := 0 }

/-- scrubOutput applies scrubPartition to every partition block. -/
def scrubOutput (o : Output) : Output :=
  { o with partitions := o.partitions.map (fun p => (p.1, scrubPartition p.2)) }

/-- exC1 is a dataset with one magnitude holding exactly 2 valid records
with distinct arraySize values. -/
def exC1 : List Record :=
  [mkRec 1 7 7 10 5 3 100, mkRec 1 7 7 20 7 2 100]

/-- exC2 is a dataset with two magnitudes: magnitude 1 has a perfectly
linear partition (slope 2, intercept 0), magnitude 2 has three rows with
a constant arraySize, so its regression fails. -/
def exC2 : List Record :=
  [mkRec 1 7 7 1 2 2 100, mkRec 1 7 7 2 4 2 100, mkRec 1 7 7 3 6 2 100,
   mkRec 2 11 11 5 1 1 100, mkRec 2 11 11 5 2 2 100,
   mkRec 2 11 11 5 3 3 100]

/-- exC3w is a single partition with meanSteps = 2 * arraySize exactly. -/
def exC3w : List Record :=
  [mkRec 1 7 7 1 2 2 100, mkRec 1 7 7 2 4 2 100, mkRec 1 7 7 4 8 2 100]

/-- exC4 is a dataset in which every row has meanSteps = 0, so the valid
set is empty. -/
def exC4 : List Record :=
  [mkRec 1 7 7 10 0 0 0, mkRec 2 11 11 20 0 0 0]

/-- exC6 is a dataset with a single valid record: its only partition is
reported as insufficient data, so no partition has a defined fit. -/
def exC6 : List Record :=
  [mkRec 1 7 7 10 5 3 100]

/-- exC7 is a partition of three valid rows whose stepsPerElement values
are all identical and equal to 0. -/
def exC7 : List Record :=
  [mkRec 1 7 7 1 1 0 100, mkRec 1 7 7 2 1 0 100, mkRec 1 7 7 3 1 0 100]

/-- exC8w is a small all-valid dataset. -/
def exC8w : List Record :=
  [mkRec 1 7 7 10 5 3 100, mkRec 1 7 7 20 8 2 100]

/-- exC9a is a three-row partition whose rows carry pairwise different
target values. -/
def exC9a : List Record :=
  [mkRec 1 10 7 1 1 1 100, mkRec 1 20 7 2 2 1 100, mkRec 1 30 7 3 3 1 100]

/-- exC9b is exC9a with the row order reversed. -/
def exC9b : List Record :=
  [mkRec 1 30 7 3 3 1 100, mkRec 1 20 7 2 2 1 100, mkRec 1 10 7 1 1 1 100]

/-- exC10w is a dataset with one valid row. -/
def exC10w : List Record :=
  [mkRec 1 7 7 10 5 3 100, mkRec 1 7 7 20 0 0 0]

/-! Permutation invariance of the basic statistics.  Every aggregate the
script computes is a function of sums, lengths and counts over a group,
so it cannot see the order of the rows; the lemmas in this section make
that precise for each building block. -/

theorem mean_perm {l₁ l₂ : List ℚ} (h : l₁.Perm l₂) : mean l₁ = mean l₂ := by
  unfold mean
  rw [h.sum_eq, h.length_eq]

theorem ssd_perm {l₁ l₂ : List ℚ} (h : l₁.Perm l₂) : ssd l₁ = ssd l₂ := by
  unfold ssd
  rw [mean_perm h, (h.map fun v => (v - mean l₂) ^ 2).sum_eq]

theorem sampleVar_perm {l₁ l₂ : List ℚ} (h : l₁.Perm l₂) :
    sampleVar l₁ = sampleVar l₂ := by
  unfold sampleVar
  rw [ssd_perm h, h.length_eq]

theorem stdRatio_perm {l₁ l₂ : List ℚ} (h : l₁.Perm l₂) :
    stdRatio l₁ = stdRatio l₂ := by
  unfold stdRatio
  rw [sampleVar_perm h, h.length_eq]

theorem cvRatio_perm {l₁ l₂ : List ℚ} (h : l₁.Perm l₂) :
    cvRatio l₁ = cvRatio l₂ := by
  unfold cvRatio
  rw [mean_perm h, stdRatio_perm h]

theorem summaryCV_perm {l₁ l₂ : List ℚ} (h : l₁.Perm l₂) :
    summaryCV l₁ = summaryCV l₂ := by
  unfold summaryCV
  rw [mean_perm h, sampleVar_perm h, h.length_eq]

theorem allEqual_perm {l₁ l₂ : List ℚ} (h : l₁.Perm l₂) :
    allEqual l₁ ↔ allEqual l₂ := by
  unfold allEqual
  constructor <;> intro ha a haa b hb
  · exact ha a (h.mem_iff.mpr haa) b (h.mem_iff.mpr hb)
  · exact ha a (h.mem_iff.mp haa) b (h.mem_iff.mp hb)

theorem zipWith_map_same {α β γ : Type} (k : β → γ → ℚ) (f : α → β) (g : α → γ)
    (l : List α) :
    List.zipWith k (l.map f) (l.map g) = l.map (fun a => k (f a) (g a)) := by
  induction l with
  | nil => rfl
  | cons a t ih => simp [ih]

theorem scp_maps_perm {s₁ s₂ : List Record} (h : s₁.Perm s₂) (f g : Record → ℚ) :
    scp (s₁.map f) (s₁.map g) = scp (s₂.map f) (s₂.map g) := by
  unfold scp
  rw [mean_perm (h.map f), mean_perm (h.map g), zipWith_map_same, zipWith_map_same,
    (h.map fun a => (f a - mean (s₂.map f)) * (g a - mean (s₂.map g))).sum_eq]

theorem linregress_maps_perm {s₁ s₂ : List Record} (h : s₁.Perm s₂)
    (f g : Record → ℚ) :
    linregress (s₁.map f) (s₁.map g) = linregress (s₂.map f) (s₂.map g) := by
  unfold linregress
  simp only [List.length_map, h.length_eq, scp_maps_perm h f g, ssd_perm (h.map f),
    ssd_perm (h.map g), mean_perm (h.map f), mean_perm (h.map g), allEqual_perm (h.map f)]

theorem rankIn_perm {l₁ l₂ : List ℚ} (h : l₁.Perm l₂) : rankIn l₁ = rankIn l₂ := by
  funext v
  unfold rankIn
  rw [h.countP_eq, h.countP_eq]

theorem ranks_of_map {α : Type} (f : α → ℚ) (s : List α) :
    ranks (s.map f) = s.map (fun a => rankIn (s.map f) (f a)) := by
  simp [ranks, List.map_map, Function.comp]

theorem pearson_maps_perm {s₁ s₂ : List Record} (h : s₁.Perm s₂) (f g : Record → ℚ) :
    pearson (s₁.map f) (s₁.map g) = pearson (s₂.map f) (s₂.map g) := by
  unfold pearson
  simp only [ssd_perm (h.map f), ssd_perm (h.map g), scp_maps_perm h f g]

theorem spearman_maps_perm {s₁ s₂ : List Record} (h : s₁.Perm s₂) (f g : Record → ℚ) :
    spearman (s₁.map f) (s₁.map g) = spearman (s₂.map f) (s₂.map g) := by
  unfold spearman
  rw [ranks_of_map, ranks_of_map, ranks_of_map, ranks_of_map]
  simp only [rankIn_perm (h.map f), rankIn_perm (h.map g)]
  exact pearson_maps_perm h _ _

theorem sortedDedup_perm {l₁ l₂ : List ℚ} (h : l₁.Perm l₂) :
    sortedDedup l₁ = sortedDedup l₂ := by
  unfold sortedDedup
  exact List.eq_of_perm_of_sorted
    (((List.perm_insertionSort _ _).trans h.dedup).trans
      (List.perm_insertionSort _ _).symm)
    (List.sorted_insertionSort _ _) (List.sorted_insertionSort _ _)

theorem sortedMags_perm {dfv₁ dfv₂ : List Record} (h : dfv₁.Perm dfv₂) :
    sortedMags dfv₁ = sortedMags dfv₂ := by
  unfold sortedMags
  exact sortedDedup_perm (h.map _)

/-! Algebra of the regression formulas: behaviour on exactly linear data
and the characterisation of the degenerate (constant x) case. -/

theorem sum_sq_nonneg (m : ℚ) (l : List ℚ) :
    0 ≤ (l.map (fun v => (v - m) ^ 2)).sum := by
  apply List.sum_nonneg
  intro x hx
  obtain ⟨v, _, rfl⟩ := List.mem_map.mp hx
  positivity

theorem sum_sq_eq_zero {m : ℚ} {l : List ℚ}
    (h : (l.map (fun v => (v - m) ^ 2)).sum = 0) : ∀ v ∈ l, v = m := by
  induction l with
  | nil => simp
  | cons a t ih =>
    simp only [List.map_cons, List.sum_cons] at h
    have ha : (0:ℚ) ≤ (a - m) ^ 2 := by positivity
    have ht : (0:ℚ) ≤ (t.map (fun v => (v - m) ^ 2)).sum := sum_sq_nonneg m t
    have h1 : (a - m) ^ 2 = 0 := by linarith
    have h2 : (t.map (fun v => (v - m) ^ 2)).sum = 0 := by linarith
    intro v hv
    rcases List.mem_cons.mp hv with rfl | hvt
    · have := pow_eq_zero_iff (n := 2) (by norm_num) |>.mp h1
      linarith
    · exact ih h2 v hvt

theorem ssd_ne_zero {l : List ℚ} (h : ¬ allEqual l) : ssd l ≠ 0 := by
  intro h0
  apply h
  intro a ha b hb
  have := sum_sq_eq_zero h0
  rw [this a ha, this b hb]

theorem sum_const {c : ℚ} {l : List ℚ} (h : ∀ v ∈ l, v = c) :
    l.sum = c * l.length := by
  induction l with
  | nil => simp
  | cons a t ih =>
    have ha := h a (List.mem_cons_self a t)
    have ht := ih fun v hv => h v (List.mem_cons_of_mem a hv)
    simp only [List.sum_cons, List.length_cons, ht, ha]
    push_cast
    ring

theorem mean_const {c : ℚ} {l : List ℚ} (hne : l ≠ []) (h : ∀ v ∈ l, v = c) :
    mean l = c := by
  have hl : (l.length : ℚ) ≠ 0 := by
    simpa using hne
  rw [mean, sum_const h, mul_div_assoc, div_self hl, mul_one]

theorem ssd_of_allEqual {l : List ℚ} (h : ∀ v ∈ l, v = mean l) :
    ssd l = 0 := by
  rw [ssd]
  apply List.sum_eq_zero
  intro x hx
  obtain ⟨v, hv, rfl⟩ := List.mem_map.mp hx
  rw [h v hv]
  ring

theorem mean_smul (k : ℚ) (l : List ℚ) :
    mean (l.map (fun v => k * v)) = k * mean l := by
  unfold mean
  rw [List.sum_map_mul_left, List.length_map, List.map_id', mul_div_assoc]

theorem ssd_smul (k : ℚ) (l : List ℚ) :
    ssd (l.map (fun v => k * v)) = k ^ 2 * ssd l := by
  unfold ssd
  rw [mean_smul, List.map_map]
  have he : ((fun v => (v - k * mean l) ^ 2) ∘ fun v => k * v) =
      fun v => k ^ 2 * (v - mean l) ^ 2 := by
    funext v
    simp only [Function.comp]
    ring
  rw [he, ← List.sum_map_mul_left]

theorem scp_smul (k : ℚ) (l : List ℚ) :
    scp l (l.map (fun v => k * v)) = k * ssd l := by
  unfold scp ssd
  rw [mean_smul, List.zipWith_map_right, List.zipWith_same]
  have he : (fun a => (a - mean l) * (k * a - k * mean l)) =
      fun a => k * (a - mean l) ^ 2 := by
    funext a
    ring
  rw [he, ← List.sum_map_mul_left]

theorem linregress_isSome_iff (x y : List ℚ) :
    (∃ f, linregress x y = some f) ↔ (2 ≤ x.length ∧ ¬ allEqual x) := by
  unfold linregress
  by_cases hc : 2 ≤ x.length ∧ ¬ allEqual x
  · simp [hc]
  · simp [hc]

/-- C3: on a partition whose meanSteps column is exactly k times its
arraySize column, with every record valid and arraySize not constant, the
regression is exact: slope k, intercept 0, R² = 1 (and zero slope
standard error).  Stated for any partition with at least 2 records, the
definedness threshold of the regression itself. -/
theorem c3_perfect_linear_fit (p : List Record) (k : ℚ)
    (hv : ∀ r ∈ p, 0 < r.meanSteps)
    (hk : ∀ r ∈ p, r.meanSteps = k * r.arraySize)
    (hne : ¬ allEqual (p.map (fun r => r.arraySize)))
    (hlen : 2 ≤ p.length) :
    linregress (p.map (fun r => r.arraySize)) (p.map (fun r => r.meanSteps)) =
      some ⟨k, 0, 1, 0⟩ := by
  have hy : p.map (fun r => r.meanSteps) =
      (p.map (fun r => r.arraySize)).map (fun v => k * v) := by
    rw [List.map_map]
    exact List.map_congr_left (fun r hr => by simpa using hk r hr)
  have hpne : p ≠ [] := by
    intro h0
    apply hne
    subst h0
    intro a ha
    simp at ha
  obtain ⟨r0, hr0⟩ := List.exists_mem_of_ne_nil p hpne
  set x := p.map (fun r => r.arraySize) with hx
  have hk0 : k ≠ 0 := by
    intro hkz
    have h0 := hv r0 hr0
    rw [hk r0 hr0, hkz, zero_mul] at h0
    exact lt_irrefl 0 h0
  have hssd : ssd x ≠ 0 := ssd_ne_zero hne
  have hxlen : 2 ≤ x.length := by
    rw [hx, List.length_map]
    exact hlen
  rw [hy]
  unfold linregress
  rw [if_pos ⟨hxlen, hne⟩]
  have h1 : scp x (x.map fun v => k * v) / ssd x = k := by
    rw [scp_smul, mul_div_assoc, div_self hssd, mul_one]
  have h2 : ¬ (ssd x = 0 ∨ ssd (x.map fun v => k * v) = 0) := by
    rw [ssd_smul]
    push_neg
    exact ⟨hssd, mul_ne_zero (pow_ne_zero 2 hk0) hssd⟩
  have h3 : scp x (x.map fun v => k * v) ^ 2 /
      (ssd x * ssd (x.map fun v => k * v)) = 1 := by
    rw [scp_smul, ssd_smul]
    field_simp
    ring
  rw [h1, if_neg h2, h3]
  simp only [mean_smul]
  norm_num

/-- C1 (amended): a partition is reported as insufficient data exactly
when it has fewer than 3 valid records (line 69; the spec's threshold of
2 is too low), and the linear fit is defined exactly when the partition
has at least 3 valid records and a non-constant arraySize column.  In
every other case the partition loop still produces a PartitionResult, so
no partition ever aborts the run. -/
theorem c1_fit_defined_iff (prev : Option (ℚ × ℚ)) (subset : List Record) :
    ((partitionStep prev subset).1 = PartitionResult.insufficient subset.length
        ↔ subset.length < 3) ∧
    ((∃ o f, (partitionStep prev subset).1 = PartitionResult.analyzed o ∧
        o.fit = some f)
      ↔ (3 ≤ subset.length ∧ ¬ allEqual (subset.map (fun r => r.arraySize)))) := by
  unfold partitionStep
  by_cases hlt : subset.length < 3
  · rw [if_pos hlt]
    refine ⟨by simpa using hlt, ?_, ?_⟩
    · rintro ⟨o, f, ho, hf⟩
      simp at ho
    · rintro ⟨h3, _⟩
      omega
  · rw [if_neg hlt]
    push_neg at hlt
    constructor
    · constructor
      · intro h
        simp at h
      · intro h
        omega
    · constructor
      · rintro ⟨o, f, ho, hf⟩
        simp only [PartitionResult.analyzed.injEq] at ho
        refine ⟨hlt, ?_⟩
        rw [← ho] at hf
        exact ((linregress_isSome_iff _ _).mp ⟨f, hf⟩).2
      · rintro ⟨h3, hne⟩
        obtain ⟨f, hfit⟩ := (linregress_isSome_iff
            (subset.map fun r => r.arraySize) (subset.map fun r => r.meanSteps)).mpr
          ⟨by rw [List.length_map]; omega, hne⟩
        exact ⟨_, f, rfl, hfit⟩

/-- C4: with all required columns present, the program signals
noValidData and carries no output at all exactly when the validity filter
leaves nothing; with at least one valid record it produces the full
report and exits normally. -/
theorem c4_empty_valid_terminal (cols : List String) (df : List Record)
    (hc : ∀ c ∈ requiredCols, c ∈ cols) :
    (filterValid df = [] → program cols df = Except.error ProgError.noValidData) ∧
    (filterValid df ≠ [] → program cols df = Except.ok (fullOutput df)) := by
  have hmiss : requiredCols.filter (fun c => decide (c ∉ cols)) = [] := by
    rw [List.filter_eq_nil_iff]
    intro c hcm
    simpa using hc c hcm
  constructor
  · intro h
    simp [program, hmiss, h]
    exact hc
  · intro h
    simp [program, hmiss, List.isEmpty_iff, h]
    exact hc

/-- C8: the validity filter is the identity on datasets whose records
are all valid, and it is idempotent on every dataset. -/
theorem c8_filter_identity_idempotent (df : List Record) :
    ((∀ r ∈ df, 0 < r.meanSteps) → filterValid df = df) ∧
    filterValid (filterValid df) = filterValid df := by
  constructor
  · intro h
    unfold filterValid
    rw [List.filter_eq_self]
    intro a ha
    simpa using h a ha
  · unfold filterValid
    rw [List.filter_eq_self]
    intro a ha
    exact (List.mem_filter.mp ha).2

/-- C10: once the required columns are present and at least one valid
record survives the filter, the program runs to completion and exits
normally with the full report; every per-partition regression failure,
residual-test failure, pivot failure or summary regression failure is
absorbed into the Output value (the model of the local try/except
blocks), never into a fatal exit. -/
theorem c10_nonfatal_completion (cols : List String) (df : List Record)
    (hc : ∀ c ∈ requiredCols, c ∈ cols)
    (hv : filterValid df ≠ []) :
    program cols df = Except.ok (fullOutput df) := by
  have hmiss : requiredCols.filter (fun c => decide (c ∉ cols)) = [] := by
    rw [List.filter_eq_nil_iff]
    intro c hcm
    simpa using hc c hcm
  simp [program, hmiss, List.isEmpty_iff, hv]
  exact hc

theorem filterMap_eq_map_filter {α β : Type} (g : α → Option β) (p : α → Bool)
    (f : α → β) (h : ∀ a, g a = if p a = true then some (f a) else none)
    (l : List α) : l.filterMap g = (l.filter p).map f := by
  induction l with
  | nil => simp
  | cons a t ih =>
    by_cases hp : p a = true
    · simp [List.filterMap_cons, List.filter_cons, h a, hp, ih]
    · simp [List.filterMap_cons, List.filter_cons, h a, hp, ih]

theorem summaryStepOf_eq (dfv : List Record) (m : ℚ) :
    summaryStepOf dfv m =
      if 3 ≤ (subsetOf dfv m).length ∧
          ¬ allEqual ((subsetOf dfv m).map (fun r => r.arraySize)) then
        some (summaryPairOf dfv m)
      else none := by
  unfold summaryStepOf summaryPairOf
  by_cases h3 : 3 ≤ (subsetOf dfv m).length
  · by_cases hae : allEqual ((subsetOf dfv m).map (fun r => r.arraySize))
    · have hnone : linregress ((subsetOf dfv m).map fun r => r.arraySize)
          ((subsetOf dfv m).map fun r => r.meanSteps) = none := by
        unfold linregress
        rw [if_neg]
        simp [hae]
      simp [h3, hae, hnone]
    · obtain ⟨f, hf⟩ := (linregress_isSome_iff
          ((subsetOf dfv m).map fun r => r.arraySize)
          ((subsetOf dfv m).map fun r => r.meanSteps)).mpr
        ⟨by rw [List.length_map]; omega, hae⟩
      simp [h3, hae, hf]
  · simp [h3]

theorem summaryPairs_eq (dfv : List Record) :
    summaryPairs dfv = (definedFitMags dfv).map (summaryPairOf dfv) := by
  unfold summaryPairs definedFitMags
  refine filterMap_eq_map_filter _ _ _ (fun m => ?_) _
  rw [summaryStepOf_eq]
  by_cases h : 3 ≤ (subsetOf dfv m).length ∧
      ¬ allEqual ((subsetOf dfv m).map (fun r => r.arraySize))
  · simp [h]
  · simp [h]

/-- C5: the summary block averages R² and the coefficient of variation
over exactly the partitions whose linear fit is defined, and the final
verdict is the first-match classification: strong when the average R²
exceeds 0.95 and the average CV is (finite and) below 15, else moderate
when the average R² exceeds 0.90 and the average CV is below 25, else
insufficient. -/
theorem c5_summary_verdict (df : List Record) :
    summaryPairs (filterValid df) =
      (definedFitMags (filterValid df)).map (summaryPairOf (filterValid df)) ∧
    (fullOutput df).summary =
      (if summaryPairs (filterValid df) = [] then none
       else some { avgR2 := mean ((summaryPairs (filterValid df)).map Prod.fst)
                   avgCV := avgCVOpt ((summaryPairs (filterValid df)).map Prod.snd)
                   verdict := classify
                     (mean ((summaryPairs (filterValid df)).map Prod.fst))
                     (avgCVOpt ((summaryPairs (filterValid df)).map Prod.snd)) }) ∧
    ∀ a c, (classify a c = Verdict.strong ↔ 95 / 100 < a ∧ cvLt c 15) ∧
      (classify a c = Verdict.moderate ↔
        ¬ (95 / 100 < a ∧ cvLt c 15) ∧ (9 / 10 < a ∧ cvLt c 25)) ∧
      (classify a c = Verdict.insufficient ↔
        ¬ (95 / 100 < a ∧ cvLt c 15) ∧ ¬ (9 / 10 < a ∧ cvLt c 25)) := by
  refine ⟨summaryPairs_eq _, ?_, ?_⟩
  · simp only [fullOutput, summaryOut, List.isEmpty_iff]
  · intro a c
    unfold classify
    split_ifs with h1 h2
    · simp [h1]
    · simp [h1, h2]
    · simp [h1, h2]

/-- C6 (amended): the final summary block, including any verdict, is
omitted entirely exactly when no partition obtained a defined linear fit;
in that case the program prints no conclusion at all (it does not
report an explicit undefined verdict, and it does not default to one of
the three verdicts). -/
theorem c6_verdict_omitted_iff (df : List Record) :
    (fullOutput df).summary = none ↔ definedFitMags (filterValid df) = [] := by
  have hs : summaryPairs (filterValid df) = [] ↔
      definedFitMags (filterValid df) = [] := by
    rw [summaryPairs_eq]
    simp [List.map_eq_nil_iff]
  simp only [fullOutput, summaryOut]
  split_ifs with h
  · simpa using hs.mp (List.isEmpty_iff.mp h)
  · have hne : ¬ summaryPairs (filterValid df) = [] := fun h0 =>
      h (List.isEmpty_iff.mpr h0)
    constructor
    · intro hx
      simp at hx
    · intro hx
      exact absurd (hs.mpr hx) hne

theorem multiset_map_perm {s₁ s₂ : List Record} (h : s₁.Perm s₂) (g : Record → ℚ) :
    Multiset.ofList (s₁.map g) = Multiset.ofList (s₂.map g) :=
  Multiset.coe_eq_coe.mpr (h.map g)

theorem partitionStep_perm {s₁ s₂ : List Record} (h : s₁.Perm s₂)
    (prev : Option (ℚ × ℚ)) :
    scrubPartition (partitionStep prev s₁).1 =
        scrubPartition (partitionStep prev s₂).1 ∧
    (partitionStep prev s₁).2 = (partitionStep prev s₂).2 := by
  have hlen := h.length_eq
  have hres : (Multiset.ofList ∘ fun si : ℚ × ℚ =>
      s₁.map (fun r => r.meanSteps - (si.1 * r.arraySize + si.2))) =
      (Multiset.ofList ∘ fun si : ℚ × ℚ =>
      s₂.map (fun r => r.meanSteps - (si.1 * r.arraySize + si.2))) :=
    funext fun si => multiset_map_perm h _
  have htrend : ((fun l => spearman (s₁.map fun r => r.arraySize) l) ∘ fun si : ℚ × ℚ =>
      s₁.map (fun r => r.meanSteps - (si.1 * r.arraySize + si.2))) =
      ((fun l => spearman (s₂.map fun r => r.arraySize) l) ∘ fun si : ℚ × ℚ =>
      s₂.map (fun r => r.meanSteps - (si.1 * r.arraySize + si.2))) :=
    funext fun si => spearman_maps_perm h _ _
  unfold partitionStep
  by_cases hlt : s₁.length < 3
  · have hlt₂ : s₂.length < 3 := by rw [← hlen]; exact hlt
    rw [if_pos hlt, if_pos hlt₂]
    exact ⟨by rw [hlen], rfl⟩
  · have hlt₂ : ¬ s₂.length < 3 := by rw [← hlen]; exact hlt
    rw [if_neg hlt, if_neg hlt₂]
    simp only [scrubPartition, Option.map_map,
      linregress_maps_perm h (fun r => r.arraySize) (fun r => r.meanSteps), hlen,
      mean_perm (h.map fun r => r.stepsPerElement),
      stdRatio_perm (h.map fun r => r.stepsPerElement),
      cvRatio_perm (h.map fun r => r.stepsPerElement),
      mean_perm (h.map fun r => r.convergenceRate), hres, htrend]
    exact ⟨trivial, trivial⟩

theorem analyzeLoop_perm {dfv₁ dfv₂ : List Record} (h : dfv₁.Perm dfv₂) :
    ∀ (mags : List ℚ) (prev : Option (ℚ × ℚ)),
      (analyzeLoop prev mags dfv₁).map (fun p => (p.1, scrubPartition p.2)) =
        (analyzeLoop prev mags dfv₂).map (fun p => (p.1, scrubPartition p.2))
  | [], _ => rfl
  | m :: ms, prev => by
    have hsub : (subsetOf dfv₁ m).Perm (subsetOf dfv₂ m) := h.filter _
    have hps := partitionStep_perm hsub prev
    simp only [analyzeLoop, List.map_cons]
    rw [hps.1, hps.2, analyzeLoop_perm h ms]

theorem pivotCell_perm {dfv₁ dfv₂ : List Record} (h : dfv₁.Perm dfv₂) (a m : ℚ) :
    pivotCell dfv₁ a m = pivotCell dfv₂ a m := by
  unfold pivotCell
  have hc : (dfv₁.filter (fun r => decide (r.arraySize = a ∧ r.magnitude = m))).Perm
      (dfv₂.filter (fun r => decide (r.arraySize = a ∧ r.magnitude = m))) := h.filter _
  have he : (dfv₁.filter
        (fun r => decide (r.arraySize = a ∧ r.magnitude = m))).isEmpty =
      (dfv₂.filter (fun r => decide (r.arraySize = a ∧ r.magnitude = m))).isEmpty := by
    rw [Bool.eq_iff_iff]
    simp only [List.isEmpty_iff, ← List.length_eq_zero, hc.length_eq]
  rw [he, mean_perm (hc.map fun r => r.convergenceRate)]

theorem pivotOf_perm {dfv₁ dfv₂ : List Record} (h : dfv₁.Perm dfv₂) :
    pivotOf dfv₁ = pivotOf dfv₂ := by
  unfold pivotOf
  simp only [sortedDedup_perm (h.map fun r => r.arraySize),
    sortedDedup_perm (h.map fun r => r.magnitude), pivotCell_perm h]

theorem summaryStepOf_perm {dfv₁ dfv₂ : List Record} (h : dfv₁.Perm dfv₂) (m : ℚ) :
    summaryStepOf dfv₁ m = summaryStepOf dfv₂ m := by
  have hsub : (subsetOf dfv₁ m).Perm (subsetOf dfv₂ m) := h.filter _
  unfold summaryStepOf
  simp only [hsub.length_eq,
    linregress_maps_perm hsub (fun r => r.arraySize) (fun r => r.meanSteps),
    summaryCV_perm (hsub.map fun r => r.stepsPerElement)]

theorem summaryPairs_perm {dfv₁ dfv₂ : List Record} (h : dfv₁.Perm dfv₂) :
    summaryPairs dfv₁ = summaryPairs dfv₂ := by
  unfold summaryPairs
  rw [sortedMags_perm h]
  exact List.filterMap_congr fun m _ => summaryStepOf_perm h m

theorem summaryOut_perm {dfv₁ dfv₂ : List Record} (h : dfv₁.Perm dfv₂) :
    summaryOut dfv₁ = summaryOut dfv₂ := by
  unfold summaryOut
  rw [summaryPairs_perm h]

/-- C9 (amended): permuting the rows of the input dataset leaves every
computed statistic and every reported value unchanged, with one
exception, erased by scrubOutput: the representative target and
smallestFactor a partition block displays are read from the partition's
first row (lines 75 and 76) and may change when rows within a magnitude
are reordered. -/
theorem c9_order_invariant_scrubbed (df₁ df₂ : List Record) (h : df₁.Perm df₂) :
    scrubOutput (fullOutput df₁) = scrubOutput (fullOutput df₂) := by
  have hv : (filterValid df₁).Perm (filterValid df₂) := h.filter _
  unfold scrubOutput fullOutput
  simp only [h.length_eq, hv.length_eq, sortedMags_perm hv, pivotOf_perm hv,
    summaryOut_perm hv, analyzeLoop_perm hv]

/-- C7 (amended): the per-partition coefficient of variation is 0 when
all stepsPerElement values coincide at a positive common value (the
spec's unqualified claim fails at a non-positive common value), and it is
the explicit infinity whenever the mean of stepsPerElement is zero. -/
theorem c7_cv_amended (subset : List Record) (hne : subset ≠ []) :
    (∀ c, 0 < c → (∀ r ∈ subset, r.stepsPerElement = c) →
      cvRatio (subset.map (fun r => r.stepsPerElement)) = CV.fin 0) ∧
    (mean (subset.map (fun r => r.stepsPerElement)) = 0 →
      cvRatio (subset.map (fun r => r.stepsPerElement)) = CV.inf) := by
  constructor
  · intro c hc hall
    have hmne : subset.map (fun r => r.stepsPerElement) ≠ [] := by
      simpa using hne
    have hmem : ∀ v ∈ subset.map (fun r => r.stepsPerElement), v = c := by
      intro v hv
      obtain ⟨r, hr, rfl⟩ := List.mem_map.mp hv
      exact hall r hr
    have hmean : mean (subset.map fun r => r.stepsPerElement) = c :=
      mean_const hmne hmem
    have hssd : ssd (subset.map fun r => r.stepsPerElement) = 0 := by
      apply ssd_of_allEqual
      intro v hv
      rw [hmean]
      exact hmem v hv
    have hvar : sampleVar (subset.map fun r => r.stepsPerElement) = 0 := by
      unfold sampleVar
      rw [hssd, zero_div]
    unfold cvRatio
    rw [hmean, if_pos hc]
    have hzero : stdRatio (subset.map fun r => r.stepsPerElement) = 0 := by
      unfold stdRatio
      split_ifs
      · rw [hvar]
        unfold sqrtQ
        norm_num
      · rfl
    rw [hzero]
    norm_num
  · intro hmean0
    unfold cvRatio
    rw [if_neg (by rw [hmean0]; exact lt_irrefl 0)]

/-! Concrete evaluations.  The small datasets exC1 to exC10w are pushed
through the model step by step; each lemma fixes the value of one
pipeline stage on one explicit input. -/

theorem evC2_valid : filterValid exC2 = exC2 := by
  norm_num [filterValid, exC2, mkRec, List.filter]

theorem evC2_mags : sortedMags exC2 = [1, 2] := by
  norm_num [sortedMags, sortedDedup, exC2, mkRec, List.dedup, List.insertionSort,
    List.orderedInsert, List.pwFilter]

theorem evC2_sub1 : subsetOf exC2 1 =
    [mkRec 1 7 7 1 2 2 100, mkRec 1 7 7 2 4 2 100, mkRec 1 7 7 3 6 2 100] := by
  norm_num [subsetOf, exC2, mkRec, List.filter]

theorem evC2_sub2 : subsetOf exC2 2 =
    [mkRec 2 11 11 5 1 1 100, mkRec 2 11 11 5 2 2 100, mkRec 2 11 11 5 3 3 100] := by
  norm_num [subsetOf, exC2, mkRec, List.filter]

theorem evlin_exact : linregress [(1:ℚ), 2, 3] [2, 4, 6] = some ⟨2, 0, 1, 0⟩ := by
  norm_num [linregress, allEqual, mean, ssd, scp]

theorem evlin_const : linregress [(5:ℚ), 5, 5] [1, 2, 3] = none := by
  norm_num [linregress, allEqual]

theorem evsp_zero_res : spearman [(1:ℚ), 2, 3] [0, 0, 0] = none := by
  norm_num [spearman, pearson, ranks, rankIn, ssd, scp, mean, List.countP_cons,
    List.countP_nil]

theorem evsp_const_x : spearman [(5:ℚ), 5, 5] [-9, -8, -7] = none := by
  norm_num [spearman, pearson, ranks, rankIn, ssd, scp, mean, List.countP_cons,
    List.countP_nil]

theorem evC2_step1 : partitionStep none
    [mkRec 1 7 7 1 2 2 100, mkRec 1 7 7 2 4 2 100, mkRec 1 7 7 3 6 2 100] =
    (PartitionResult.analyzed
      { count := 3, targetShown := 7, smallestFactorShown := 7,
        fit := some ⟨2, 0, 1, 0⟩, meanRatio := 2, sdRatio := 0, cv := CV.fin 0,
        residuals := some (Multiset.ofList [0, 0, 0]),
        residualTrend := some none, convRate := 100 },
     some (2, 0)) := by
  simp only [partitionStep, mkRec, List.map, List.length_cons, List.length_nil]
  norm_num [evlin_exact, evsp_zero_res, mean, stdRatio, sampleVar, ssd, cvRatio, sqrtQ]

theorem evC2_step2 : partitionStep (some (2, 0))
    [mkRec 2 11 11 5 1 1 100, mkRec 2 11 11 5 2 2 100, mkRec 2 11 11 5 3 3 100] =
    (PartitionResult.analyzed
      { count := 3, targetShown := 11, smallestFactorShown := 11,
        fit := none, meanRatio := 2, sdRatio := 1, cv := CV.fin 50,
        residuals := some (Multiset.ofList [-9, -8, -7]),
        residualTrend := some none, convRate := 100 },
     some (2, 0)) := by
  simp only [partitionStep, mkRec, List.map, List.length_cons, List.length_nil]
  norm_num [evlin_const, evsp_const_x, mean, stdRatio, sampleVar, ssd, cvRatio, sqrtQ,
    Nat.sqrt_one, Rat.num_ofNat, Rat.den_ofNat]

/-- C2: on exC2 the second partition's regression is undefined (its
arraySize column is the constant 5), yet the residual diagnostics are
still computed for it, silently reusing slope 2 and intercept 0 from the
first partition: the residual values are 1 - (2*5 + 0) = -9,
2 - 10 = -8 and 3 - 10 = -7, and the Spearman test runs on them.  The
claim (and the spec) requires the residual trend not to be computed when
the partition's own fit is undefined and forbids substituting statistics
from a previously analysed partition. -/
theorem c2_stale_fit_reused :
    (fullOutput exC2).partitions.map (fun p => fitOfResult p.2) =
      [some (some ⟨2, 0, 1, 0⟩), some none] ∧
    (fullOutput exC2).partitions.map (fun p => residualsOfResult p.2) =
      [some (some (Multiset.ofList [0, 0, 0])),
        some (some (Multiset.ofList [-9, -8, -7]))] ∧
    (fullOutput exC2).partitions.map (fun p => residualTrendOfResult p.2) =
      [some (some none), some (some none)] := by
  have hmags : (fullOutput exC2).partitions = analyzeLoop none [1, 2] exC2 := by
    simp only [fullOutput]
    rw [evC2_valid, evC2_mags]
  have hloop : (fullOutput exC2).partitions =
      [(1, (partitionStep none (subsetOf exC2 1)).1),
        (2, (partitionStep (partitionStep none (subsetOf exC2 1)).2
          (subsetOf exC2 2)).1)] := by
    rw [hmags]
    simp only [analyzeLoop]
  refine ⟨?_, ?_, ?_⟩ <;>
  · rw [hloop]
    simp only [evC2_sub1, evC2_sub2, evC2_step1, evC2_step2, List.map_cons, List.map_nil,
      fitOfResult, residualsOfResult, residualTrendOfResult]

/-- C1 counterexample: exC1 has one partition of exactly 2 valid records
with distinct arraySize values; the claim demands a defined linear fit,
but the script reports the partition as insufficient data (the threshold
on line 69 is 3, not 2). -/
theorem c1_counterexample_two_records :
    2 ≤ (filterValid exC1).length ∧
    ¬ allEqual ((filterValid exC1).map (fun r => r.arraySize)) ∧
    (fullOutput exC1).partitions = [(1, PartitionResult.insufficient 2)] := by
  norm_num [fullOutput, exC1, filterValid, sortedMags, sortedDedup, analyzeLoop,
    subsetOf, partitionStep, mkRec, List.filter, List.dedup, List.insertionSort,
    List.orderedInsert, List.pwFilter, allEqual]

/-- C6 counterexample: exC6 has a single valid record, so no partition
obtains a defined fit; the summary block is absent from the output (none)
instead of carrying an explicit undefined verdict. -/
theorem c6_counterexample_silent_omission :
    definedFitMags (filterValid exC6) = [] ∧ (fullOutput exC6).summary = none := by
  norm_num [fullOutput, exC6, filterValid, sortedMags, sortedDedup, mkRec, List.filter,
    List.dedup, List.insertionSort, List.orderedInsert, List.pwFilter, summaryOut,
    summaryPairs, summaryStepOf, subsetOf, definedFitMags, allEqual]

theorem evC7_valid : filterValid exC7 = exC7 := by
  norm_num [filterValid, exC7, mkRec, List.filter]

theorem evC7_mags : sortedMags exC7 = [1] := by
  norm_num [sortedMags, sortedDedup, exC7, mkRec, List.dedup, List.insertionSort,
    List.orderedInsert, List.pwFilter]

theorem evC7_sub : subsetOf exC7 1 =
    [mkRec 1 7 7 1 1 0 100, mkRec 1 7 7 2 1 0 100, mkRec 1 7 7 3 1 0 100] := by
  norm_num [subsetOf, exC7, mkRec, List.filter]

theorem evC7_lin : linregress [(1:ℚ), 2, 3] [1, 1, 1] = some ⟨0, 1, 0, 0⟩ := by
  norm_num [linregress, allEqual, mean, ssd, scp]

theorem evC7_step : partitionStep none
    [mkRec 1 7 7 1 1 0 100, mkRec 1 7 7 2 1 0 100, mkRec 1 7 7 3 1 0 100] =
    (PartitionResult.analyzed
      { count := 3, targetShown := 7, smallestFactorShown := 7,
        fit := some ⟨0, 1, 0, 0⟩, meanRatio := 0, sdRatio := 0, cv := CV.inf,
        residuals := some (Multiset.ofList [0, 0, 0]),
        residualTrend := some none, convRate := 100 },
     some (0, 1)) := by
  simp only [partitionStep, mkRec, List.map, List.length_cons, List.length_nil]
  norm_num [evC7_lin, evsp_zero_res, mean, stdRatio, sampleVar, ssd, cvRatio, sqrtQ]

/-- C7 counterexample: in exC7 every stepsPerElement value is identical
(all 0), yet the computed coefficient of variation is the infinity
substitute, not 0, because the mean ratio is not positive (line 111). -/
theorem c7_counterexample_identical_zero :
    (∀ r ∈ exC7, r.stepsPerElement = 0) ∧
    (fullOutput exC7).partitions.map (fun p => cvOfResult p.2) = [some CV.inf] := by
  constructor
  · decide
  · have hmags : (fullOutput exC7).partitions = analyzeLoop none [1] exC7 := by
      simp only [fullOutput]
      rw [evC7_valid, evC7_mags]
    rw [hmags]
    simp only [analyzeLoop, evC7_sub, evC7_step, List.map_cons, List.map_nil, cvOfResult]

/-- C9 counterexample: exC9b is a row permutation of exC9a, but the
reported representative target of the single partition differs (first
row 10 versus 30), so not every reported output value is
order-invariant. -/
theorem c9_counterexample_first_row_target :
    exC9a.Perm exC9b ∧
    (fullOutput exC9a).partitions.map (fun p => targetOfResult p.2) ≠
      (fullOutput exC9b).partitions.map (fun p => targetOfResult p.2) := by
  constructor
  · decide
  · norm_num [fullOutput, exC9a, exC9b, filterValid, sortedMags, sortedDedup,
      analyzeLoop, subsetOf, partitionStep, mkRec, List.filter, List.dedup,
      List.insertionSort, List.orderedInsert, List.pwFilter, linregress, allEqual,
      mean, ssd, scp, sampleVar, sqrtQ, stdRatio, cvRatio, spearman, pearson, ranks,
      rankIn, List.countP_cons, List.countP_nil, targetOfResult]

/-- Witness instantiating the C3 theorem on exC3w with k = 2. -/
theorem c3_witness :
    linregress (exC3w.map (fun r => r.arraySize)) (exC3w.map (fun r => r.meanSteps)) =
      some ⟨2, 0, 1, 0⟩ :=
  c3_perfect_linear_fit exC3w 2
    (by norm_num [exC3w, mkRec])
    (by norm_num [exC3w, mkRec])
    (by norm_num [exC3w, mkRec, allEqual, List.map_cons, List.map_nil])
    (by norm_num [exC3w])

/-- Witness instantiating the C4 theorem on the all-invalid dataset exC4. -/
theorem c4_witness : program requiredCols exC4 = Except.error ProgError.noValidData :=
  (c4_empty_valid_terminal requiredCols exC4 (fun c hc => hc)).1
    (by norm_num [filterValid, exC4, mkRec, List.filter])

/-- Witness instantiating the C7 amended theorem: identical positive
ratios give CV 0, zero-mean ratios give the infinity substitute. -/
theorem c7_witness :
    cvRatio (exC3w.map (fun r => r.stepsPerElement)) = CV.fin 0 ∧
    cvRatio (exC4.map (fun r => r.stepsPerElement)) = CV.inf :=
  ⟨(c7_cv_amended exC3w (by decide)).1 2 (by norm_num)
      (by norm_num [exC3w, mkRec]),
    (c7_cv_amended exC4 (by decide)).2
      (by norm_num [exC4, mkRec, mean, List.map_cons, List.map_nil])⟩

/-- Witness instantiating the C8 theorem on the all-valid dataset exC8w. -/
theorem c8_witness :
    filterValid exC8w = exC8w ∧
    filterValid (filterValid exC8w) = filterValid exC8w :=
  ⟨(c8_filter_identity_idempotent exC8w).1 (by decide),
    (c8_filter_identity_idempotent exC8w).2⟩

/-- Witness instantiating the C9 amended theorem on the permuted pair
exC9a, exC9b. -/
theorem c9_witness :
    scrubOutput (fullOutput exC9a) = scrubOutput (fullOutput exC9b) :=
  c9_order_invariant_scrubbed exC9a exC9b (by decide)

/-- Witness instantiating the C10 theorem on exC10w. -/
theorem c10_witness : program requiredCols exC10w = Except.ok (fullOutput exC10w) :=
  c10_nonfatal_completion requiredCols exC10w (fun c hc => hc)
    (by norm_num [filterValid, exC10w, mkRec, List.filter])

end ScalingAnalysis
